import Mathlib

/-!
Verification of the dataflow-engine repository (common.py, engine.py,
parsing.py) against its specification.  Python strings are modelled as
`List Char`, Python values occurring in parsed `.gml` dictionaries as the
inductive `Value`, and engine runtime values as `EVal`.  Fallible Python
code is modelled with `Except PyErr`, where the `PyErr` constructors name
the Python exception class that the source would raise.
-/

/-- Strings of the modelled Python code, as lists of characters. -/
abbrev Str := List Char

/-- Python exception kinds raised by the modelled code paths. -/
inductive PyErr where
  | typeError
  | attributeError
  | valueError
  | indexError
  | keyError
  | unboundLocalError
  | engineAttributeError
  | recursionError
  deriving DecidableEq, Repr

/-- Characters stripped by Python str.strip (the common whitespace set). -/
def isPyWS (c : Char) : Bool :=
  c = ' ' || c = '\t' || c = '\n' || c = '\r' || c = '\x0b' || c = '\x0c'

/-- Python str.strip: drop leading and trailing whitespace. -/
def pyStrip (l : Str) : Str :=
  ((l.dropWhile isPyWS).reverse.dropWhile isPyWS).reverse

/-- Embeds parsing.preprocess_line: line.strip().replace with the newline
removed (the replace only matters for interior newlines, modelled by the
filter). -/
def preprocess_line (l : Str) : Str :=
  (pyStrip l).filter (fun c => c ≠ '\n')

/-- Python str.split(sep) for a one-character separator: splits at every
occurrence and keeps empty pieces, so the result is always nonempty. -/
def pySplit : Str → Char → List Str
  | [], _ => [[]]
  | x :: xs, c =>
    let r := pySplit xs c
    if x = c then [] :: r else (x :: r.headD []) :: r.tail

/-- Python str.find for a one-character needle: index of the first
occurrence, or -1 when absent. -/
def pyFindC : Str → Char → Int
  | [], _ => -1
  | x :: xs, c =>
    if x = c then 0
    else
      let r := pyFindC xs c
      if r = -1 then -1 else r + 1

/-- Python str.rfind for a one-character needle: index of the last
occurrence, or -1 when absent. -/
def pyRFindC : Str → Char → Int
  | [], _ => -1
  | x :: xs, c =>
    let r := pyRFindC xs c
    if r ≠ -1 then r + 1 else if x = c then 0 else -1

/-- Decimal digits of a natural number, used for the stepped-field
suffixes of read_gml. -/
def natRepr (n : Nat) : Str := (Nat.repr n).toList

/-- Values held in the nested dictionaries produced by parsing a .gml
file.  Floats are kept as their literal text: no claim depends on float
arithmetic, and the spec treats scalars opaquely.  Dictionaries are
insertion-ordered association lists with unique keys, matching Python
dict semantics for the dictionaries the reader constructs. -/
inductive Value where
  | int (n : Int)
  | float (s : Str)
  | str (s : Str)
  | bool (b : Bool)
  | none
  | dict (entries : List (Str × Value))

/-- Association-list lookup, modelling Python dict indexing for the
string-keyed dictionaries of the reader. -/
def alookup {α : Type} : List (Str × α) → Str → Option α
  | [], _ => Option.none
  | (k, v) :: rest, key => if k = key then some v else alookup rest key

/-- Setting a key of an insertion-ordered dictionary: replace in place if
the key exists, otherwise append at the end (Python dict semantics). -/
def assocSet (es : List (Str × Value)) (k : Str) (v : Value) : List (Str × Value) :=
  match es with
  | [] => [(k, v)]
  | (k2, w) :: rest => if k2 = k then (k2, v) :: rest else (k2, w) :: assocSet rest k v

/-- Checks whether needle is a prefix of hay, character by character. -/
def headMatches : Str → Str → Bool
  | _, [] => true
  | [], _ :: _ => false
  | a :: as, b :: bs => a == b && headMatches as bs

/-- Python substring containment needle in hay for strings. -/
def hasSub : Str → Str → Bool
  | [], needle => needle.isEmpty
  | c :: rest, needle => headMatches (c :: rest) needle || hasSub rest needle

mutual
/-- Python == on the modelled values.  bool compares equal to its int
value (False == 0, True == 1) as in Python; dicts compare as unordered
key/value maps; float literals compare textually (no claim exercises
numeric float equality). -/
def pyEq : Value → Value → Bool
  | Value.int a, Value.int b => a == b
  | Value.int a, Value.bool b => a == (if b then (1 : Int) else 0)
  | Value.bool a, Value.int b => (if a then (1 : Int) else 0) == b
  | Value.bool a, Value.bool b => a == b
  | Value.str s, Value.str t => s == t
  | Value.float s, Value.float t => s == t
  | Value.none, Value.none => true
  | Value.dict es, Value.dict fs => es.length == fs.length && pyEqEntries es fs
  | _, _ => false

/-- Every entry of the first dictionary is present with an equal value in
the second; with equal lengths and unique keys this is Python dict
equality. -/
def pyEqEntries : List (Str × Value) → List (Str × Value) → Bool
  | [], _ => true
  | (k, v) :: rest, fs =>
    (match alookup fs k with
     | some w => pyEq v w
     | Option.none => false)
    && pyEqEntries rest fs
end

/-- Python b in a for the modelled values: dict membership tests the
keys, string membership is substring search, every other value raises
TypeError (not a container); an unhashable (dict) key also raises. -/
def pyContains (a b : Value) : Except PyErr Bool :=
  match a with
  | Value.dict es =>
    match b with
    | Value.dict _ => Except.error PyErr.typeError
    | _ => Except.ok (es.any (fun kv => pyEq (Value.str kv.1) b))
  | Value.str s =>
    match b with
    | Value.str t => Except.ok (hasSub s t)
    | _ => Except.error PyErr.typeError
  | _ => Except.error PyErr.typeError

/-- Embeds common.get_dict_value: walk the key path, returning the
sentinel False when a key is absent from a dictionary level.  On a
non-dictionary level Python raises: key in scalar is a TypeError, and
when the level is a string a contained key leads to string indexing with
a string, also a TypeError. -/
def get_dict_value (dic : Value) (keys : List Str) : Except PyErr Value :=
  match keys with
  | [] => Except.ok dic
  | k :: ks =>
    match dic with
    | Value.dict es =>
      match alookup es k with
      | some v => get_dict_value v ks
      | Option.none => Except.ok (Value.bool false)
    | Value.str s =>
      if hasSub s k then Except.error PyErr.typeError
      else Except.ok (Value.bool false)
    | _ => Except.error PyErr.typeError

/-- Embeds common.set_dict_value: walk keys with setdefault creating
nested dictionaries, then assign at the final key.  An empty key tuple
indexes keys with -1 (IndexError); setdefault on a non-dictionary raises
AttributeError; item assignment on a non-dictionary raises TypeError. -/
def set_dict_value : Value → List Str → Value → Except PyErr Value
  | _, [], _ => Except.error PyErr.indexError
  | Value.dict es, [k], v => Except.ok (Value.dict (assocSet es k v))
  | Value.dict es, k :: k2 :: ks, v =>
    let sub := (alookup es k).getD (Value.dict [])
    match set_dict_value sub (k2 :: ks) v with
    | Except.ok sub2 => Except.ok (Value.dict (assocSet es k sub2))
    | Except.error e => Except.error e
  | _, [_], _ => Except.error PyErr.typeError
  | _, _ :: _ :: _, _ => Except.error PyErr.attributeError

/-- Accumulates the decimal value of a digit string. -/
def digitsToNat (ds : Str) : Nat :=
  ds.foldl (fun acc c => acc * 10 + (c.toNat - '0'.toNat)) 0

/-- Python int(string): surrounding whitespace ignored, an optional
sign, then a nonempty digit run.  Digit-group underscores are not
modelled; no claim exercises them. -/
def parseIntPy (s : Str) : Option Int :=
  if (pyStrip s).headD ' ' = '+' ∨ (pyStrip s).headD ' ' = '-' then
    if (pyStrip s).tail ≠ [] ∧ (pyStrip s).tail.all Char.isDigit then
      some (if (pyStrip s).headD ' ' = '-' then -((digitsToNat (pyStrip s).tail) : Int)
            else ((digitsToNat (pyStrip s).tail) : Int))
    else Option.none
  else
    if pyStrip s ≠ [] ∧ (pyStrip s).all Char.isDigit then
      some ((digitsToNat (pyStrip s)) : Int)
    else Option.none

/-- Characters that can occur in a Python float literal (digits, sign,
dot, exponent markers and the letters of inf/infinity/nan). -/
def legalFloatChar (c : Char) : Bool :=
  c.isDigit || c = '.' || c = 'e' || c = 'E' || c = '+' || c = '-' ||
  c = 'i' || c = 'n' || c = 'f' || c = 'a' || c = 't' || c = 'y' ||
  c = 'I' || c = 'N' || c = 'F' || c = 'A' || c = 'T' || c = 'Y'

/-- Mantissa shape of a float literal: digits, optionally with a dot on
either side, at least one digit overall. -/
def mantissaShape (m : Str) : Bool :=
  let intPart := m.takeWhile Char.isDigit
  let rest := m.dropWhile Char.isDigit
  match rest with
  | [] => !intPart.isEmpty
  | '.' :: frac => (!intPart.isEmpty || !frac.isEmpty) && frac.all Char.isDigit
  | _ => false

/-- Python float(string) recognizer: surrounding whitespace ignored,
optional sign, then a mantissa with optional exponent, or one of the
words inf, infinity, nan (case-insensitively). -/
def isFloatPy (s : Str) : Bool :=
  let t := pyStrip s
  if !t.all legalFloatChar then false
  else
    let u :=
      match t with
      | '+' :: rest => rest
      | '-' :: rest => rest
      | _ => t
    let w := u.map Char.toLower
    (w == "inf".toList || w == "infinity".toList || w == "nan".toList) ||
    (let mant := u.takeWhile (fun c => c ≠ 'e' && c ≠ 'E')
     let rest := u.dropWhile (fun c => c ≠ 'e' && c ≠ 'E')
     mantissaShape mant &&
     (match rest with
      | [] => true
      | _ :: ex =>
        let ex2 :=
          match ex with
          | '+' :: r => r
          | '-' :: r => r
          | _ => ex
        !ex2.isEmpty && ex2.all Char.isDigit))

/-- Embeds parsing.interpret_value: strip one leading and one trailing
quote if present (indexing an empty string raises IndexError), then try
int, then float, else keep the string. -/
def interpret_value (v : Str) : Except PyErr Value :=
  match v with
  | [] => Except.error PyErr.indexError
  | c :: rest =>
    let v1 := if c = '"' then rest else c :: rest
    match v1.getLast? with
    | Option.none => Except.error PyErr.indexError
    | some d =>
      let v2 := if d = '"' then v1.dropLast else v1
      match parseIntPy v2 with
      | some n => Except.ok (Value.int n)
      | Option.none =>
        if isFloatPy v2 then Except.ok (Value.float v2) else Except.ok (Value.str v2)

/-- Relations of parsing.py: Equals, DoesNotEqual and Contains. -/
inductive RelKind where
  | equals
  | doesNotEqual
  | contains
  deriving DecidableEq, Repr

/-- One (attribute path, relation, expected value) triple of a Pattern:
the parallel fields/relations/values sequences zipped together. -/
structure PTriple where
  path : List Str
  rel : RelKind
  val : Value

/-- Relation.match of the concrete relation classes: Equals is Python ==,
DoesNotEqual its negation, Contains is b in a (which can raise). -/
def rel_match (r : RelKind) (a b : Value) : Except PyErr Bool :=
  match r with
  | RelKind.equals => Except.ok (pyEq a b)
  | RelKind.doesNotEqual => Except.ok (!pyEq a b)
  | RelKind.contains => pyContains a b

/-- Loop body of Pattern.match: is_match = is_match and relation.match(...).
Python's and short-circuits, so once the accumulator is False the lookup
and the relation are no longer evaluated. -/
def pattern_match_go (record : Value) : Bool → List PTriple → Except PyErr Bool
  | b, [] => Except.ok b
  | b, t :: rest =>
    if b then
      match get_dict_value record t.path with
      | Except.error e => Except.error e
      | Except.ok actual =>
        match rel_match t.rel actual t.val with
        | Except.error e => Except.error e
        | Except.ok r => pattern_match_go record r rest
    else pattern_match_go record false rest

/-- Embeds Pattern.match: the accumulator starts True and is folded over
the triples in order. -/
def Pattern_match (ts : List PTriple) (record : Value) : Except PyErr Bool :=
  pattern_match_go record true ts

/-- Evaluates every Pattern of a classification scheme against the
record, in order, as the list comprehension in get_entity does; the first
raising Pattern aborts the whole classification. -/
def map_matches : List (Str × List PTriple) → Value → Except PyErr (List Bool)
  | [], _ => Except.ok []
  | pr :: rest, record =>
    match Pattern_match pr.2 record with
    | Except.error e => Except.error e
    | Except.ok b =>
      match map_matches rest record with
      | Except.error e => Except.error e
      | Except.ok bs => Except.ok (b :: bs)

/-- Embeds parsing.get_entity over an explicit role-to-Pattern scheme (the
source reads it from the configuration dictionary): returns the role at
matches.index(True) when exactly one Pattern matched, else None. -/
def get_entity (scheme : List (Str × List PTriple)) (record : Value) :
    Except PyErr (Option Str) :=
  match map_matches scheme record with
  | Except.error e => Except.error e
  | Except.ok ms =>
    if ms.count true = 1 then
      Except.ok (some ((scheme.map Prod.fst).getD (ms.findIdx (fun b => b)) []))
    else Except.ok Option.none

/-- First index of the character in the string, as a natural number;
callers establish that the character occurs. -/
def pyFindCNat (l : Str) (c : Char) : Nat := (pyFindC l c).toNat

/-- Embeds parsing.parse_label with the configured token @ and separator
space.  When the token count differs from 1 the source raises while
formatting the error message: the message is a tuple of string fragments
and tuple has no .format, an AttributeError.  With a separator present,
the name slice is label[find(token)+1 : find(separator)+1], which keeps
the separator character at the end of the name. -/
def parse_label (label : Str) : Except PyErr (Str × Str) :=
  let token : Char := '@'
  let sep : Char := ' '
  if label.count token ≠ 1 then Except.error PyErr.attributeError
  else
    let indSep := pyFindC label sep
    if indSep = -1 then
      Except.ok (label.drop (pyFindCNat label token + 1), [])
    else
      Except.ok
        ((label.take (indSep.toNat + 1)).drop (pyFindCNat label token + 1),
         label.drop (indSep.toNat + 1))

/-- Embeds parsing.variable_from_definitions: read the label field of the
node record, parse it, then getattr the name from the definitions
namespace (modelled as a name-to-value table; a missing name raises
AttributeError).  Returns the Variable constructor arguments
(name, value, description). -/
def variable_from_definitions {α : Type} (definitions : List (Str × α))
    (params : Value) : Except PyErr (Str × α × Str) :=
  match params with
  | Value.dict es =>
    match alookup es ("label".toList) with
    | some (Value.str label) =>
      match parse_label label with
      | Except.error e => Except.error e
      | Except.ok (name, desc) =>
        match alookup definitions name with
        | some v => Except.ok (name, v, desc)
        | Option.none => Except.error PyErr.attributeError
    | some _ => Except.error PyErr.attributeError
    | Option.none => Except.error PyErr.keyError
  | _ => Except.error PyErr.typeError

/-- Edge priorities: an explicit integer order, or the PositiveInfinity
sentinel assigned when the order label is absent.  The sentinel is an int
subclass of numeric value 0 whose less-than always answers False. -/
inductive Priority where
  | int (n : Int)
  | posInf
  deriving DecidableEq, Repr

/-- Python < on priorities.  PositiveInfinity overrides only its own
less-than, so on the left it never compares less; on the right the plain
int's less-than runs against the sentinel's underlying value 0 (the
sentinel does not override the reflected operation). -/
def pyLtP : Priority → Priority → Bool
  | Priority.posInf, _ => false
  | Priority.int a, Priority.int b => decide (a < b)
  | Priority.int a, Priority.posInf => decide (a < 0)

/-- The not-less-than test a stable ascending sort places elements by. -/
def lePair {V : Type} (x y : Priority × V) : Bool := !(pyLtP y.1 x.1)

/-- Stable insertion of a (priority, value) pair: the new element goes
before the first element it is not greater than. -/
def ordered_insert {V : Type} (x : Priority × V) :
    List (Priority × V) → List (Priority × V)
  | [] => [x]
  | y :: rest => if lePair x y then x :: y :: rest else y :: ordered_insert x rest

/-- Embeds PriorityList.sort_by_priority.  The source stably sorts the
indices of _priorities with sorted(enumerate(...), key=priority) and then
permutes _priorities and _values by those indices; permuting both
parallel lists by the stable sort indices of the priorities is the same
as stably sorting the list of (priority, value) pairs by priority, which
is what this models (as a stable insertion sort).  On the concrete
sentinel-bearing inputs evaluated by the theorems below the result
agrees with CPython's sort algorithm. -/
def sort_by_priority {V : Type} (l : List (Priority × V)) : List (Priority × V) :=
  l.foldr ordered_insert []

/-- Embeds parsing.get_edge_order with the configured order field label
and default pos_inf: a missing key raises KeyError, caught by the bare
except which returns the default.  A present non-integer label is
returned raw by the source and falls outside the Priority model, giving
Option.none here; no spec claim concerns that case. -/
def get_edge_order (edge : Value) : Option Priority :=
  match edge with
  | Value.dict es =>
    match alookup es ("label".toList) with
    | Option.none => some Priority.posInf
    | some (Value.int n) => some (Priority.int n)
    | some _ => Option.none
  | _ => Option.none

/-- Runtime values of the engine: None, scalars, the SkipType and
TouchType class objects (passed around as first-class values), and
tuples. -/
inductive EVal where
  | noneV
  | intE (n : Int)
  | strE (s : Str)
  | boolE (b : Bool)
  | skipT
  | touchT
  | tupE (vs : List EVal)

/-- Embeds common._make_iterable(outputs, tuple) as used by
Function.call: None becomes the empty tuple, an iterable (tuple or
string) is kept as is (a string iterates into one-character strings),
any other value is wrapped into a one-element tuple. -/
def make_iterable_tuple (v : EVal) : List EVal :=
  match v with
  | EVal.noneV => []
  | EVal.tupE vs => vs
  | EVal.strE s => s.map (fun c => EVal.strE [c])
  | x => [x]

/-- A Variable of the engine: its current value and the PriorityList of
trigger Functions, referenced by index into the Workspace function
registry (build order; the lists are already priority-sorted when the
runtime runs). -/
structure CellE where
  value : EVal
  triggers : List Nat

/-- A Function of the engine: the wrapped callable and the gets/sets/
triggers edge lists, referencing Variables and Functions by registry
index. -/
structure FuncE where
  fn : List EVal → EVal
  gets : List Nat
  sets : List Nat
  triggers : List Nat

/-- A Workspace: the Variable and Function registries, by index. -/
structure WSE where
  vars : List CellE
  funcs : List FuncE

/-- Default cell used by total index lookups; built workspaces only
reference valid indices. -/
def defaultCell : CellE := { value := EVal.noneV, triggers := [] }

/-- Replaces the value of the indexed Variable. -/
def setVar (ws : WSE) (vi : Nat) (v : EVal) : WSE :=
  { ws with vars := ws.vars.set vi { ws.vars.getD vi defaultCell with value := v } }

/-- Runs each trigger Function in list order, to completion, stopping at
the first raised error; the call argument is the runtime's
Function.call at the current recursion budget. -/
def run_triggers_with (call : WSE → Nat → Except (PyErr × WSE) WSE) :
    WSE → List Nat → Except (PyErr × WSE) WSE
  | ws, [] => Except.ok ws
  | ws, fi :: rest =>
    match call ws fi with
    | Except.error e => Except.error e
    | Except.ok ws2 => run_triggers_with call ws2 rest

/-- Embeds Variable.set_value: store the value, then run the triggers. -/
def set_variable_value_with (call : WSE → Nat → Except (PyErr × WSE) WSE)
    (ws : WSE) (vi : Nat) (v : EVal) : Except (PyErr × WSE) WSE :=
  run_triggers_with call (setVar ws vi v) ((ws.vars.getD vi defaultCell).triggers)

/-- Embeds Variable.touch: run the triggers without storing a value. -/
def touch_variable_with (call : WSE → Nat → Except (PyErr × WSE) WSE)
    (ws : WSE) (vi : Nat) : Except (PyErr × WSE) WSE :=
  run_triggers_with call ws ((ws.vars.getD vi defaultCell).triggers)

/-- The one-by-one dispatch loop of Function.call: a Skip output leaves
the cell alone, a Touch output touches it, any other output sets it. -/
def dispatch_one_by_one_with (call : WSE → Nat → Except (PyErr × WSE) WSE) :
    WSE → List (Nat × EVal) → Except (PyErr × WSE) WSE
  | ws, [] => Except.ok ws
  | ws, (vi, out) :: rest =>
    match out with
    | EVal.skipT => dispatch_one_by_one_with call ws rest
    | EVal.touchT =>
      match touch_variable_with call ws vi with
      | Except.error e => Except.error e
      | Except.ok ws2 => dispatch_one_by_one_with call ws2 rest
    | v =>
      match set_variable_value_with call ws vi v with
      | Except.error e => Except.error e
      | Except.ok ws2 => dispatch_one_by_one_with call ws2 rest

/-- Embeds Function.call.  The callable runs on the gets values, the
result is normalized to a tuple, and dispatch follows the source: equal
arity is cast one by one; otherwise with a single output cell the source
enters its packing branch, which reads the loop variables output and k
that were never bound in that branch, an UnboundLocalError; otherwise the
source raises, but the message it builds calls .format on a tuple of
string fragments, so a builtin AttributeError is raised instead of
EngineAttributeError.  After a successful dispatch the Function's own
triggers run.  Errors carry the workspace state at raise time.  Fuel
models Python's finite call stack; exhaustion is a RecursionError. -/
def call_function : Nat → WSE → Nat → Except (PyErr × WSE) WSE
  | 0, ws, _ => Except.error (PyErr.recursionError, ws)
  | Nat.succ fuel, ws, fi =>
    match ws.funcs.get? fi with
    | Option.none => Except.error (PyErr.indexError, ws)
    | some f =>
      let args := f.gets.map (fun vi => (ws.vars.getD vi defaultCell).value)
      let outputs := make_iterable_tuple (f.fn args)
      if outputs.length = f.sets.length then
        match dispatch_one_by_one_with (fun ws2 fj => call_function fuel ws2 fj)
            ws (f.sets.zip outputs) with
        | Except.error e => Except.error e
        | Except.ok ws2 =>
          run_triggers_with (fun ws3 fj => call_function fuel ws3 fj) ws2 f.triggers
      else if f.sets.length = 1 then
        Except.error (PyErr.unboundLocalError, ws)
      else
        Except.error (PyErr.attributeError, ws)

/-- The NamedList container of common.py: parallel key and value lists. -/
structure NamedListM (V : Type) where
  keys : List Str
  values : List V

/-- Python list.index(x) for the key list: index of the first
occurrence, ValueError when absent.  This is what _get_ind does for a
string index. -/
def list_index (l : List Str) (s : Str) : Except PyErr Nat :=
  match l with
  | [] => Except.error PyErr.valueError
  | k :: rest =>
    if k = s then Except.ok 0
    else
      match list_index rest s with
      | Except.ok i => Except.ok (i + 1)
      | Except.error e => Except.error e

/-- Python list.pop(i): negative indices count from the end, an index out
of range raises IndexError, otherwise the element is removed and
returned. -/
def list_pop {α : Type} (l : List α) (i : Int) : Except PyErr (α × List α) :=
  let j := if i < 0 then i + l.length else i
  if 0 ≤ j ∧ j < l.length then
    match l.get? j.toNat with
    | some a => Except.ok (a, l.eraseIdx j.toNat)
    | Option.none => Except.error PyErr.indexError
  else Except.error PyErr.indexError

/-- Embeds NamedList.pop, which accepts an integer position or a string
key.  The source computes ind = _get_ind(index) (for a string key, the
position of that key), but then calls self._keys.pop(index) with the
original argument instead of ind: list.pop requires an integer, so a
string key raises TypeError before anything is removed.  Errors carry
the registry state at raise time. -/
def NamedList_pop {V : Type} (nl : NamedListM V) (index : Int ⊕ Str) :
    Except (PyErr × NamedListM V) (V × NamedListM V) :=
  match index with
  | Sum.inr s =>
    match list_index nl.keys s with
    | Except.error e => Except.error (e, nl)
    | Except.ok _ind => Except.error (PyErr.typeError, nl)
  | Sum.inl i =>
    match list_pop nl.keys i with
    | Except.error e => Except.error (e, nl)
    | Except.ok (_, keys2) =>
      match list_pop nl.values i with
      | Except.error e => Except.error (e, { nl with keys := keys2 })
      | Except.ok (v, values2) => Except.ok (v, { keys := keys2, values := values2 })

/-- A PriorityList object as seen by its iteration protocol: the parallel
priority and value lists plus the single cursor field _n stored on the
object itself. -/
structure PriorityListIt (V : Type) where
  priorities : List Priority
  values : List V
  cursor : Nat

/-- Embeds PriorityList.__iter__: it resets the object's own cursor to 0
and returns the object itself, so every reference to the container
observes the reset. -/
def pl_iter {V : Type} (pl : PriorityListIt V) : PriorityListIt V :=
  { pl with cursor := 0 }

/-- Embeds PriorityList.__next__: yields the value at the cursor and
advances it, or signals StopIteration (None) at the end, leaving the
cursor in place. -/
def pl_next {V : Type} (pl : PriorityListIt V) : Option (V × PriorityListIt V) :=
  if h : pl.cursor < pl.values.length then
    some (pl.values.get ⟨pl.cursor, h⟩, { pl with cursor := pl.cursor + 1 })
  else Option.none

/-- Runs a for-loop over the iterator to completion from its current
cursor: the values produced and the final object state. -/
def pl_drain {V : Type} (pl : PriorityListIt V) : List V × PriorityListIt V :=
  if h : pl.cursor < pl.values.length then
    let r := pl_drain { pl with cursor := pl.cursor + 1 }
    (pl.values.get ⟨pl.cursor, h⟩ :: r.1, r.2)
  else ([], pl)
termination_by pl.values.length - pl.cursor

/-- A NamedList object as seen by its iteration protocol: keys, values
and the single cursor field _n on the object. -/
structure NamedListIt (V : Type) where
  keys : List Str
  values : List V
  cursor : Nat

/-- Embeds NamedList.__iter__: reset the shared cursor, return self. -/
def nl_iter {V : Type} (nl : NamedListIt V) : NamedListIt V :=
  { nl with cursor := 0 }

/-- Embeds NamedList.__next__. -/
def nl_next {V : Type} (nl : NamedListIt V) : Option (V × NamedListIt V) :=
  if h : nl.cursor < nl.values.length then
    some (nl.values.get ⟨nl.cursor, h⟩, { nl with cursor := nl.cursor + 1 })
  else Option.none

/-- Runs a for-loop over the NamedList iterator to completion from its
current cursor. -/
def nl_drain {V : Type} (nl : NamedListIt V) : List V × NamedListIt V :=
  if h : nl.cursor < nl.values.length then
    let r := nl_drain { nl with cursor := nl.cursor + 1 }
    (nl.values.get ⟨nl.cursor, h⟩ :: r.1, r.2)
  else ([], nl)
termination_by nl.values.length - nl.cursor

/-- Line categories produced by parsing.parse_line. -/
inductive ParseOut where
  | singleWord (s : Str)
  | bracketOpen
  | bracketClose
  | contStarts (field : Str) (s : Str)
  | contEnds (s : Str)
  | continuation (s : Str)
  | validKV (field : Str) (s : Str)
  | invalidKV

/-- Embeds parsing.parse_line with the configured tab separator and
square brackets.  Outside a continuation, a two-item split is a
key/value line (a value whose only quote is its first character starts a
continuation, an empty quote pair is invalid), a one-item split is a
bracket or a bare word, and anything else raises ValueError.  Inside a
continuation, a line whose only quote is its final character ends the
continuation. -/
def parse_line (line : Str) (continued : Bool) : Except PyErr ParseOut :=
  let separated := pySplit line '\t'
  if continued then
    let ll : Int := (line.length : Int) - 1
    if pyFindC line '"' = ll ∧ pyRFindC line '"' = ll then
      Except.ok (ParseOut.contEnds line)
    else Except.ok (ParseOut.continuation line)
  else
    match separated with
    | [f, s1] =>
      if pyFindC s1 '"' = 0 ∧ pyRFindC s1 '"' = 0 then
        Except.ok (ParseOut.contStarts f s1)
      else if s1 = ['"', '"'] ∨ s1 = [Char.ofNat 39, Char.ofNat 39] then
        Except.ok ParseOut.invalidKV
      else Except.ok (ParseOut.validKV f s1)
    | [w] =>
      if w = ['['] then Except.ok ParseOut.bracketOpen
      else if w = [']'] then Except.ok ParseOut.bracketClose
      else Except.ok (ParseOut.singleWord line)
    | _ => Except.error PyErr.valueError

/-- The mutable state of the read_gml loop: the result dictionary, the
bracket stack of open field names, the continuation flag, the function
locals field and val (None until first assigned), and the stepped-field
occurrence counters. -/
structure GmlState where
  result : Value
  fields : List Str
  continued : Bool
  lastField : Option Str
  lastVal : Option Str
  nFields : List (Str × Nat)

/-- Initial read_gml state: counters for the configured stepped fields
node and edge. -/
def init_gml_state : GmlState :=
  { result := Value.dict []
    fields := []
    continued := false
    lastField := Option.none
    lastVal := Option.none
    nFields := [("node".toList, 0), ("edge".toList, 0)] }

/-- Bumps the occurrence counter of a stepped field. -/
def bumpCounter : List (Str × Nat) → Str → List (Str × Nat)
  | [], _ => []
  | (k, n) :: rest, f =>
    if k = f then (k, n + 1) :: rest else (k, n) :: bumpCounter rest f

/-- Embeds read_gml's nested format_field: a stepped field is counted and
suffixed with its running occurrence number. -/
def format_field (st : GmlState) (f : Str) : Str × GmlState :=
  match alookup st.nFields f with
  | some n => (f ++ '_' :: natRepr (n + 1), { st with nFields := bumpCounter st.nFields f })
  | Option.none => (f, st)

/-- Embeds the body of read_gml as a fold over the file's lines.  Bare
words push onto the bracket stack (and re-bind the field local); closing
brackets pop it (IndexError on an empty stack); a continuation start
records field and val; continuation lines join with single spaces; a
continuation end and a plain key/value line interpret the accumulated
value and store it at the bracket stack plus the recorded field. -/
def read_gml_loop : List Str → GmlState → Except PyErr Value
  | [], st => Except.ok st.result
  | line :: rest, st =>
    match parse_line (preprocess_line line) st.continued with
    | Except.error e => Except.error e
    | Except.ok p =>
      match p with
      | ParseOut.singleWord s =>
        let fs := format_field st s
        read_gml_loop rest
          { fs.2 with fields := fs.2.fields ++ [fs.1], lastField := some fs.1 }
      | ParseOut.bracketClose =>
        match st.fields with
        | [] => Except.error PyErr.indexError
        | _ :: _ => read_gml_loop rest { st with fields := st.fields.dropLast }
      | ParseOut.contStarts f s =>
        read_gml_loop rest
          { st with continued := true, lastField := some f, lastVal := some s }
      | ParseOut.continuation s =>
        match st.lastVal with
        | some v => read_gml_loop rest { st with lastVal := some (v ++ ' ' :: s) }
        | Option.none => Except.error PyErr.unboundLocalError
      | ParseOut.contEnds s =>
        match st.lastVal, st.lastField with
        | some v, some f =>
          let v2 := v ++ ' ' :: s
          match interpret_value v2 with
          | Except.error e => Except.error e
          | Except.ok value =>
            match set_dict_value st.result (st.fields ++ [f]) value with
            | Except.error e => Except.error e
            | Except.ok res =>
              read_gml_loop rest
                { st with result := res, continued := false, lastVal := some v2 }
        | _, _ => Except.error PyErr.unboundLocalError
      | ParseOut.validKV f s =>
        match interpret_value s with
        | Except.error e => Except.error e
        | Except.ok value =>
          match set_dict_value st.result (st.fields ++ [f]) value with
          | Except.error e => Except.error e
          | Except.ok res =>
            read_gml_loop rest
              { st with result := res, lastField := some f, lastVal := some s }
      | ParseOut.bracketOpen => read_gml_loop rest st
      | ParseOut.invalidKV => read_gml_loop rest st

/-- Embeds read_gml on the file's lines. -/
def read_gml_lines (lines : List Str) : Except PyErr Value :=
  read_gml_loop lines init_gml_state

/-- Specification-side evaluator for one Pattern triple: the relation
applied to the looked-up actual value, where an absent path contributes
the sentinel False produced by get_dict_value.  Used to state what
Pattern.match computes on non-raising inputs; a raising lookup or a
contains triple is evaluated by Pattern_match itself, not by this
shorthand. -/
def triple_holds (record : Value) (t : PTriple) : Bool :=
  match get_dict_value record t.path with
  | Except.ok actual =>
    match t.rel with
    | RelKind.equals => pyEq actual t.val
    | RelKind.doesNotEqual => !pyEq actual t.val
    | RelKind.contains => false
  | Except.error _ => false

/-- Views integer-priority pairs inside the Priority type, for stating
the sorting invariant on lists whose priorities are all explicit
integers. -/
def intPairs {V : Type} (l : List (Int × V)) : List (Priority × V) :=
  l.map (fun pv => (Priority.int pv.1, pv.2))

/-- Example computation for the packing-dispatch claims: one output cell
and a callable returning a 3-tuple. -/
def fn_pack_example : FuncE :=
  { fn := fun _ => EVal.tupE [EVal.intE 1, EVal.intE 2, EVal.intE 3]
    gets := []
    sets := [0]
    triggers := [] }

/-- Workspace for the packing-dispatch claims. -/
def ws_pack_example : WSE :=
  { vars := [{ value := EVal.noneV, triggers := [] }]
    funcs := [fn_pack_example] }

/-- Example computation for the arity-error claims: two output cells and
a callable returning a 3-tuple. -/
def fn_arity_example : FuncE :=
  { fn := fun _ => EVal.tupE [EVal.intE 1, EVal.intE 2, EVal.intE 3]
    gets := []
    sets := [0, 1]
    triggers := [] }

/-- Workspace for the arity-error claims. -/
def ws_arity_example : WSE :=
  { vars := [{ value := EVal.noneV, triggers := [] }, { value := EVal.noneV, triggers := [] }]
    funcs := [fn_arity_example] }

theorem pySplit_no_sep {l : Str} {c : Char} (h : c ∉ l) : pySplit l c = [l] := by
  induction l with
  | nil => rfl
  | cons x xs ih =>
    have hx : ¬(x = c) := fun hc => h (hc ▸ List.mem_cons_self x xs)
    have hxs : c ∉ xs := fun hc => h (List.mem_cons_of_mem x hc)
    simp [pySplit, hx, ih hxs]

theorem pySplit_mid {a : Str} (b : Str) {c : Char} (h : c ∉ a) :
    pySplit (a ++ c :: b) c = a :: pySplit b c := by
  induction a with
  | nil => simp [pySplit]
  | cons x xs ih =>
    have hx : ¬(x = c) := fun hc => h (hc ▸ List.mem_cons_self x xs)
    have hxs : c ∉ xs := fun hc => h (List.mem_cons_of_mem x hc)
    simp [pySplit, hx, ih hxs]

theorem pyFindC_not_mem {l : Str} {c : Char} (h : c ∉ l) : pyFindC l c = -1 := by
  induction l with
  | nil => rfl
  | cons x xs ih =>
    have hx : ¬(x = c) := fun hc => h (hc ▸ List.mem_cons_self x xs)
    have hxs : c ∉ xs := fun hc => h (List.mem_cons_of_mem x hc)
    simp [pyFindC, hx, ih hxs]

theorem pyRFindC_not_mem {l : Str} {c : Char} (h : c ∉ l) : pyRFindC l c = -1 := by
  induction l with
  | nil => rfl
  | cons x xs ih =>
    have hx : ¬(x = c) := fun hc => h (hc ▸ List.mem_cons_self x xs)
    have hxs : c ∉ xs := fun hc => h (List.mem_cons_of_mem x hc)
    simp [pyRFindC, hx, ih hxs]

theorem pyFindC_head (l : Str) (c : Char) : pyFindC (c :: l) c = 0 := by
  simp [pyFindC]

theorem pyRFindC_head {l : Str} {c : Char} (h : c ∉ l) : pyRFindC (c :: l) c = 0 := by
  simp [pyRFindC, pyRFindC_not_mem h]

theorem pyFindC_concat {l : Str} {c : Char} (h : c ∉ l) :
    pyFindC (l ++ [c]) c = (l.length : Int) := by
  induction l with
  | nil => simp [pyFindC]
  | cons x xs ih =>
    have hx : ¬(x = c) := fun hc => h (hc ▸ List.mem_cons_self x xs)
    have hxs : c ∉ xs := fun hc => h (List.mem_cons_of_mem x hc)
    have hlen : ((xs.length : Int)) ≠ -1 := by omega
    simp [pyFindC, hx, ih hxs, hlen]

theorem pyRFindC_concat (l : Str) (c : Char) :
    pyRFindC (l ++ [c]) c = (l.length : Int) := by
  induction l with
  | nil => simp [pyRFindC]
  | cons x xs ih =>
    have hlen : ((xs.length : Int)) ≠ -1 := by omega
    simp [pyRFindC, ih, hlen]

theorem dropWhile_append_of_exists {p : Char → Bool} {a : Str} (t : Str)
    (h : ∃ x ∈ a, p x = false) :
    List.dropWhile p (a ++ t) = List.dropWhile p a ++ t := by
  induction a with
  | nil =>
    rcases h with ⟨x, hx, _⟩
    exact absurd hx (List.not_mem_nil x)
  | cons c a2 ih =>
    by_cases hc : p c
    · rcases h with ⟨x, hx, hxf⟩
      rcases List.mem_cons.1 hx with rfl | hx2
      · rw [hc] at hxf; cases hxf
      · simp [List.dropWhile_cons, hc, ih ⟨x, hx2, hxf⟩]
    · simp [List.dropWhile_cons, hc]

theorem space_mem_pyStrip {a b : Str} {x y : Char}
    (hx : x ∈ a) (hxw : isPyWS x = false) (hy : y ∈ b) (hyw : isPyWS y = false) :
    ' ' ∈ pyStrip (a ++ ' ' :: b) := by
  unfold pyStrip
  rw [dropWhile_append_of_exists (' ' :: b) ⟨x, hx, hxw⟩]
  rw [show List.dropWhile isPyWS a ++ ' ' :: b =
      (List.dropWhile isPyWS a ++ [' ']) ++ b by simp]
  rw [List.reverse_append]
  rw [dropWhile_append_of_exists ((List.dropWhile isPyWS a ++ [' ']).reverse)
      ⟨y, List.mem_reverse.2 hy, hyw⟩]
  rw [List.mem_reverse]
  apply List.mem_append_right
  rw [List.mem_reverse]
  exact List.mem_append_right _ (List.mem_singleton.2 rfl)

theorem parseIntPy_none_of_space {s : Str} (h : ' ' ∈ pyStrip s) :
    parseIntPy s = Option.none := by
  have hall : ∀ ds : Str, ' ' ∈ ds → (ds.all Char.isDigit) = false := by
    intro ds hm
    rw [List.all_eq_false]
    exact ⟨' ', hm, by decide⟩
  have htl : ∀ c : Char, (pyStrip s).headD ' ' = c → ¬(c = ' ') → ' ' ∈ (pyStrip s).tail := by
    intro c hc hcs
    cases ht : pyStrip s with
    | nil => rw [ht] at h; exact absurd h (List.not_mem_nil ' ')
    | cons d rest =>
      rw [ht] at h hc
      rcases List.mem_cons.1 h with hd | hrest
      · exact absurd (by rw [← hd] at hc; exact hc.symm) hcs
      · simpa using hrest
  unfold parseIntPy
  by_cases hsign : (pyStrip s).headD ' ' = '+' ∨ (pyStrip s).headD ' ' = '-'
  · have hcond : ¬((pyStrip s).tail ≠ [] ∧ (pyStrip s).tail.all Char.isDigit = true) := by
      rintro ⟨-, hd⟩
      rcases hsign with h1 | h1
      · rw [hall _ (htl '+' h1 (by decide))] at hd
        exact Bool.false_ne_true hd
      · rw [hall _ (htl '-' h1 (by decide))] at hd
        exact Bool.false_ne_true hd
    rw [if_pos hsign, if_neg hcond]
  · have hcond : ¬(pyStrip s ≠ [] ∧ (pyStrip s).all Char.isDigit = true) := by
      rintro ⟨-, hd⟩
      rw [hall _ h] at hd
      exact Bool.false_ne_true hd
    rw [if_neg hsign, if_neg hcond]

theorem isFloatPy_false_of_space {s : Str} (h : ' ' ∈ pyStrip s) :
    isFloatPy s = false := by
  unfold isFloatPy
  have hall : (pyStrip s).all legalFloatChar = false :=
    List.all_eq_false.2 ⟨' ', h, by decide⟩
  simp [hall]

theorem interpret_value_quoted {core : Str} (h : ' ' ∈ pyStrip core) :
    interpret_value ('"' :: (core ++ ['"'])) = Except.ok (Value.str core) := by
  unfold interpret_value
  simp [List.getLast?_concat, List.dropLast_concat,
        parseIntPy_none_of_space h, isFloatPy_false_of_space h]

theorem parse_line_opening {key f1 : Str} (hkT : '\t' ∉ key) (h1T : '\t' ∉ f1)
    (h1Q : '"' ∉ f1) :
    parse_line (key ++ '\t' :: '"' :: f1) false = Except.ok (ParseOut.contStarts key ('"' :: f1)) := by
  have hsplit : pySplit (key ++ '\t' :: '"' :: f1) '\t' = [key, '"' :: f1] := by
    rw [pySplit_mid ('"' :: f1) hkT,
        pySplit_no_sep (by simpa using h1T)]
  unfold parse_line
  rw [hsplit]
  simp [pyFindC_head, pyRFindC_head h1Q]

theorem parse_line_middle {f2 : Str} (h2Q : '"' ∉ f2) (h2 : f2 ≠ []) :
    parse_line f2 true = Except.ok (ParseOut.continuation f2) := by
  unfold parse_line
  have hcond : ¬(pyFindC f2 '"' = (f2.length : Int) - 1 ∧
      pyRFindC f2 '"' = (f2.length : Int) - 1) := by
    rintro ⟨hf, -⟩
    rw [pyFindC_not_mem h2Q] at hf
    have : f2.length ≠ 0 := fun h0 => h2 (List.length_eq_zero.1 h0)
    omega
  simp only [if_true]
  rw [if_neg hcond]

theorem parse_line_closing {f3 : Str} (h3Q : '"' ∉ f3) :
    parse_line (f3 ++ ['"']) true = Except.ok (ParseOut.contEnds (f3 ++ ['"'])) := by
  unfold parse_line
  have hlen : ((f3 ++ ['"']).length : Int) - 1 = (f3.length : Int) := by
    simp
  have hcond : pyFindC (f3 ++ ['"']) '"' = ((f3 ++ ['"']).length : Int) - 1 ∧
      pyRFindC (f3 ++ ['"']) '"' = ((f3 ++ ['"']).length : Int) - 1 := by
    rw [hlen, pyFindC_concat h3Q, pyRFindC_concat]
    exact ⟨rfl, rfl⟩
  simp only [if_true]
  rw [if_pos hcond]

/-- C8: a key-value directive whose quoted value is split across three
lines (the opening key-value line's value '"'-prefixed with no other
quote, a quoteless middle line, a closing line ending in the matching
quote) stores at that key the three fragments joined by single spaces
with the surrounding quotes stripped.  The fragments are quote-free, the
first two nonempty with non-whitespace inner boundary characters (so the
joined value stays a string under scalar interpretation), lines are
their own preprocessed forms, and the key and opening fragment are
tab-free so the opening line splits into exactly key and value. -/
theorem C8_continuation_roundtrip
    (key f1 f2 f3 : Str)
    (hkT : '\t' ∉ key)
    (hp1 : preprocess_line (key ++ '\t' :: '"' :: f1) = key ++ '\t' :: '"' :: f1)
    (h1T : '\t' ∉ f1) (h1Q : '"' ∉ f1) (h1 : f1 ≠ [])
    (h1L : isPyWS (f1.getLastD ' ') = false)
    (hp2 : preprocess_line f2 = f2) (h2Q : '"' ∉ f2) (h2 : f2 ≠ [])
    (h2H : isPyWS (f2.headD ' ') = false)
    (hp3 : preprocess_line (f3 ++ ['"']) = f3 ++ ['"']) (h3Q : '"' ∉ f3) :
    read_gml_lines [key ++ '\t' :: '"' :: f1, f2, f3 ++ ['"']] =
      Except.ok (Value.dict [(key, Value.str (f1 ++ ' ' :: (f2 ++ ' ' :: f3)))]) := by
  have hmem1 : f1.getLastD ' ' ∈ f1 := by
    rcases List.eq_nil_or_concat f1 with rfl | ⟨l2, a, rfl⟩
    · exact absurd rfl h1
    · simp [List.concat_eq_append, List.getLastD_concat]
  have hmem2 : f2.headD ' ' ∈ f2 := by
    cases f2 with
    | nil => exact absurd rfl h2
    | cons a l2 => exact List.mem_cons_self _ _
  have hspace : ' ' ∈ pyStrip (f1 ++ ' ' :: (f2 ++ ' ' :: f3)) :=
    space_mem_pyStrip hmem1 h1L (List.mem_append_left _ hmem2) h2H
  have hjoin : ('"' :: f1) ++ ' ' :: f2 ++ ' ' :: (f3 ++ ['"']) =
      '"' :: ((f1 ++ ' ' :: (f2 ++ ' ' :: f3)) ++ ['"']) := by
    simp
  simp only [read_gml_lines, read_gml_loop, init_gml_state, hp1, hp2, hp3,
    parse_line_opening hkT h1T h1Q, parse_line_middle h2Q h2, parse_line_closing h3Q]
  rw [hjoin, interpret_value_quoted hspace]
  simp [set_dict_value, assocSet]

/-- Witness for C8 at a concrete three-line directive. -/
theorem C8_continuation_roundtrip_witness :
    ('\t' ∉ "label".toList) ∧ ("hello".toList ≠ []) ∧ ("world".toList ≠ []) ∧
    read_gml_lines ["label\t\"hello".toList, "world".toList, "again\"".toList] =
      Except.ok (Value.dict [("label".toList,
        Value.str ("hello".toList ++ ' ' :: ("world".toList ++ ' ' :: "again".toList)))]) :=
  ⟨by decide, by decide, by decide,
   C8_continuation_roundtrip "label".toList "hello".toList "world".toList "again".toList
     (by decide) (by decide) (by decide) (by decide) (by decide) (by decide)
     (by decide) (by decide) (by decide) (by decide) (by decide) (by decide)⟩

theorem lePair_posInf {V : Type} (x : Priority × V) (e : V) :
    lePair x (Priority.posInf, e) = true := by
  simp [lePair, pyLtP]

theorem ordered_insert_append_posInf {V : Type} (x : Priority × V) (s : List (Priority × V))
    (e : V) :
    ordered_insert x (s ++ [(Priority.posInf, e)]) =
      ordered_insert x s ++ [(Priority.posInf, e)] := by
  induction s with
  | nil => simp [ordered_insert, lePair_posInf]
  | cons y rest ih =>
    by_cases hxy : lePair x y
    · simp [ordered_insert, hxy]
    · simp [ordered_insert, hxy, ih]

theorem sort_by_priority_concat_posInf {V : Type} (l : List (Priority × V)) (e : V) :
    sort_by_priority (l ++ [(Priority.posInf, e)]) =
      sort_by_priority l ++ [(Priority.posInf, e)] := by
  induction l with
  | nil => rfl
  | cons a l2 ih =>
    show ordered_insert a (sort_by_priority (l2 ++ [(Priority.posInf, e)])) = _
    rw [ih, ordered_insert_append_posInf]
    rfl

theorem ordered_insert_perm {V : Type} (x : Priority × V) (s : List (Priority × V)) :
    List.Perm (ordered_insert x s) (x :: s) := by
  induction s with
  | nil => rfl
  | cons y rest ih =>
    by_cases hxy : lePair x y
    · simp [ordered_insert, hxy]
    · simp only [ordered_insert, hxy, if_false]
      exact (List.Perm.cons y ih).trans (List.Perm.swap x y rest)

theorem sort_by_priority_perm {V : Type} (l : List (Priority × V)) :
    List.Perm (sort_by_priority l) l := by
  induction l with
  | nil => rfl
  | cons a l2 ih =>
    exact (ordered_insert_perm a (sort_by_priority l2)).trans (List.Perm.cons a ih)

theorem ordered_insert_mem {V : Type} {x z : Priority × V} {s : List (Priority × V)}
    (h : z ∈ ordered_insert x s) : z = x ∨ z ∈ s := by
  have := (ordered_insert_perm x s).mem_iff.1 h
  simpa using this

theorem pyLtP_int_trans {a b c : Int} (h1 : pyLtP (Priority.int b) (Priority.int a) = false)
    (h2 : pyLtP (Priority.int c) (Priority.int b) = false) :
    pyLtP (Priority.int c) (Priority.int a) = false := by
  simp only [pyLtP, decide_eq_false_iff_not] at h1 h2 ⊢
  omega

theorem ordered_insert_pairwise {V : Type} (x : Priority × V) (s : List (Priority × V))
    (hx : ∃ n, x.1 = Priority.int n)
    (hs : ∀ z ∈ s, ∃ n, z.1 = Priority.int n)
    (hp : List.Pairwise (fun a b : Priority × V => pyLtP b.1 a.1 = false) s) :
    List.Pairwise (fun a b : Priority × V => pyLtP b.1 a.1 = false) (ordered_insert x s) := by
  induction s with
  | nil => simp [ordered_insert]
  | cons y rest ih =>
    rcases List.pairwise_cons.1 hp with ⟨hyrest, hprest⟩
    by_cases hxy : lePair x y
    · have hxyR : pyLtP y.1 x.1 = false := by
        simpa [lePair] using hxy
      rw [show ordered_insert x (y :: rest) = x :: y :: rest by simp [ordered_insert, hxy]]
      refine List.pairwise_cons.2 ⟨?_, hp⟩
      intro z hz
      rcases List.mem_cons.1 hz with rfl | hzr
      · exact hxyR
      · rcases hx with ⟨a, ha⟩
        rcases hs y (List.mem_cons_self _ _) with ⟨b, hb⟩
        rcases hs z (List.mem_cons_of_mem _ hzr) with ⟨c, hc⟩
        rw [ha, hb] at hxyR
        have hyz := hyrest z hzr
        rw [hb, hc] at hyz
        rw [ha, hc]
        exact pyLtP_int_trans hxyR hyz
    · have hyx : pyLtP x.1 y.1 = false := by
        have hlt : pyLtP y.1 x.1 = true := by
          have := hxy
          simp [lePair] at this
          exact this
        rcases hx with ⟨a, ha⟩
        rcases hs y (List.mem_cons_self _ _) with ⟨b, hb⟩
        rw [ha, hb] at hlt ⊢
        simp only [pyLtP, decide_eq_true_eq] at hlt
        simp only [pyLtP, decide_eq_false_iff_not]
        omega
      rw [show ordered_insert x (y :: rest) = y :: ordered_insert x rest by
        simp [ordered_insert, hxy]]
      refine List.pairwise_cons.2 ⟨?_, ih (fun z hz => hs z (List.mem_cons_of_mem _ hz)) hprest⟩
      intro z hz
      rcases ordered_insert_mem hz with rfl | hzr
      · exact hyx
      · exact hyrest z hzr

theorem sort_by_priority_pairwise {V : Type} (l : List (Priority × V))
    (hl : ∀ z ∈ l, ∃ n, z.1 = Priority.int n) :
    List.Pairwise (fun a b : Priority × V => pyLtP b.1 a.1 = false) (sort_by_priority l) := by
  induction l with
  | nil => simp [sort_by_priority]
  | cons a l2 ih =>
    show List.Pairwise _ (ordered_insert a (sort_by_priority l2))
    refine ordered_insert_pairwise a _ (hl a (List.mem_cons_self _ _)) ?_ ?_
    · intro z hz
      exact hl z (List.mem_cons_of_mem _ ((sort_by_priority_perm l2).mem_iff.1 hz))
    · exact ih (fun z hz => hl z (List.mem_cons_of_mem _ hz))

theorem filter_ordered_insert_eq {V : Type} (q : Int) (x : Priority × V)
    (hx : x.1 = Priority.int q) (s : List (Priority × V)) :
    (ordered_insert x s).filter (fun pv => pv.1 == Priority.int q) =
      x :: s.filter (fun pv => pv.1 == Priority.int q) := by
  induction s with
  | nil => simp [ordered_insert, hx]
  | cons y rest ih =>
    by_cases hxy : lePair x y
    · simp [ordered_insert, hxy, List.filter_cons, hx]
    · have hy : (y.1 == Priority.int q) = false := by
        have hlt : pyLtP y.1 x.1 = true := by
          have := hxy
          simp [lePair] at this
          exact this
        rw [hx] at hlt
        cases hyd : y.1 with
        | posInf => rw [hyd] at hlt; simp [pyLtP] at hlt
        | int m =>
          rw [hyd] at hlt
          simp only [pyLtP, decide_eq_true_eq] at hlt
          rw [beq_eq_false_iff_ne]
          intro hmq
          injection hmq with hmq
          omega
      have hrw : ordered_insert x (y :: rest) = y :: ordered_insert x rest := by
        simp [ordered_insert, hxy]
      rw [hrw]
      simp [List.filter_cons, hy, ih]

theorem filter_ordered_insert_ne {V : Type} (q : Int) (x : Priority × V)
    (hx : (x.1 == Priority.int q) = false) (s : List (Priority × V)) :
    (ordered_insert x s).filter (fun pv => pv.1 == Priority.int q) =
      s.filter (fun pv => pv.1 == Priority.int q) := by
  induction s with
  | nil => simp [ordered_insert, hx]
  | cons y rest ih =>
    by_cases hxy : lePair x y
    · simp [ordered_insert, hxy, List.filter_cons, hx]
    · have hrw : ordered_insert x (y :: rest) = y :: ordered_insert x rest := by
        simp [ordered_insert, hxy]
      rw [hrw]
      simp [List.filter_cons, ih]

theorem sort_by_priority_filter {V : Type} (q : Int) (l : List (Priority × V)) :
    (sort_by_priority l).filter (fun pv => pv.1 == Priority.int q) =
      l.filter (fun pv => pv.1 == Priority.int q) := by
  induction l with
  | nil => rfl
  | cons a l2 ih =>
    show (ordered_insert a (sort_by_priority l2)).filter _ = _
    by_cases ha : (a.1 == Priority.int q) = true
    · have haq : a.1 = Priority.int q := by simpa [beq_iff_eq] using ha
      rw [filter_ordered_insert_eq q a haq, ih]
      simp [List.filter_cons, ha]
    · have haq : ¬(a.1 = Priority.int q) := by simpa [beq_iff_eq] using ha
      rw [filter_ordered_insert_ne q a (by simpa using ha), ih]
      simp [List.filter_cons, haq]

/-- C4 counterexample: an edge without the order label gets the
PositiveInfinity sentinel, but sorting does not place it after an edge
with explicit priority 5 that was appended after it: the claim that a
defaulted edge always sorts last in its list is false.  The sort leaves
the pair order unchanged because an int never compares less than the
sentinel, whose underlying int value is 0.  (CPython's stable sort makes
exactly one comparison on a two-element list and swaps only when the
second compares less than the first.) -/
theorem C4_counterexample :
    get_edge_order (Value.dict []) = some Priority.posInf ∧
    get_edge_order (Value.dict [("label".toList, Value.int 5)]) = some (Priority.int 5) ∧
    pyLtP (Priority.int 5) Priority.posInf = false ∧
    sort_by_priority [(Priority.posInf, 0), (Priority.int 5, 1)] =
      [(Priority.posInf, 0), (Priority.int 5, 1)] :=
  ⟨rfl, rfl, rfl, rfl⟩

/-- C4 amended: an absent order label yields the PositiveInfinity
sentinel; the sentinel never compares less than any priority, and
consequently a defaulted edge appended after every other edge of its
list is still last after sorting; but because the sentinel is an int of
underlying value 0, an explicit non-negative priority does not compare
less than it either, so a defaulted edge appended before an explicitly
prioritized edge need not sort after it. -/
theorem C4_amended :
    (∀ es : List (Str × Value), alookup es ("label".toList) = Option.none →
      get_edge_order (Value.dict es) = some Priority.posInf) ∧
    (∀ p : Priority, pyLtP Priority.posInf p = false) ∧
    (∀ n : Int, pyLtP (Priority.int n) Priority.posInf = decide (n < 0)) ∧
    (∀ (V : Type) (l : List (Priority × V)) (v : V),
      sort_by_priority (l ++ [(Priority.posInf, v)]) =
        sort_by_priority l ++ [(Priority.posInf, v)]) := by
  refine ⟨?_, ?_, ?_, ?_⟩
  · intro es h
    simp only [get_edge_order]
    rw [h]
  · intro p
    rfl
  · intro n
    rfl
  · intro V l v
    exact sort_by_priority_concat_posInf l v

/-- Witness for the C4 amended theorem at concrete inputs. -/
theorem C4_amended_witness :
    alookup ([] : List (Str × Value)) ("label".toList) = Option.none ∧
    get_edge_order (Value.dict []) = some Priority.posInf ∧
    sort_by_priority [(Priority.int 2, 10), (Priority.posInf, 11)] =
      sort_by_priority [(Priority.int 2, 10)] ++ [(Priority.posInf, 11)] :=
  ⟨rfl, C4_amended.1 [] rfl, C4_amended.2.2.2 Nat [(Priority.int 2, 10)] 11⟩

/-- C7 counterexample: gets/sets/triggers lists are sorted only by
sort_by_priority, and on the reachable priority sequence 5, defaulted,
3 (three edges whose order labels are 5, absent and 3, appended in that
order) the sort leaves the list unchanged, so the edge list is not in
ascending priority order after the build: the explicit priority 3 stays
after the explicit priority 5. -/
theorem C7_counterexample :
    get_edge_order (Value.dict [("label".toList, Value.int 5)]) = some (Priority.int 5) ∧
    get_edge_order (Value.dict []) = some Priority.posInf ∧
    get_edge_order (Value.dict [("label".toList, Value.int 3)]) = some (Priority.int 3) ∧
    sort_by_priority [(Priority.int 5, 0), (Priority.posInf, 1), (Priority.int 3, 2)] =
      [(Priority.int 5, 0), (Priority.posInf, 1), (Priority.int 3, 2)] ∧
    pyLtP (Priority.int 3) (Priority.int 5) = true :=
  ⟨rfl, rfl, rfl, rfl, rfl⟩

theorem intPairs_filter {V : Type} (q : Int) (l : List (Int × V)) :
    (intPairs l).filter (fun pv => pv.1 == Priority.int q) =
      intPairs (l.filter (fun pv => pv.1 == q)) := by
  induction l with
  | nil => rfl
  | cons a l2 ih =>
    by_cases h : a.1 = q
    · simp only [intPairs, List.map_cons, List.filter_cons] at ih ⊢
      simp [h, ih]
    · simp only [intPairs, List.map_cons, List.filter_cons] at ih ⊢
      have h2 : ¬(Priority.int a.1 = Priority.int q) := by
        intro hc; injection hc with hc; exact h hc
      simp [h, h2, ih]

/-- C7 amended: after the builder's sorting phase, an edge list whose
priorities are all explicit integers is in ascending priority order with
equal priorities preserving original append order (the per-priority
subsequences are unchanged, and the sorted list is a permutation of the
appended one); the spec's concrete example (3,a),(1,b),(1,c) to b,c,a
holds.  Lists containing the defaulted PositiveInfinity sentinel are not
covered: they can remain out of order (see the counterexample). -/
theorem C7_amended :
    (∀ (V : Type) (l : List (Int × V)),
      List.Pairwise (fun a b : Priority × V => pyLtP b.1 a.1 = false)
        (sort_by_priority (intPairs l)) ∧
      (∀ q : Int, (sort_by_priority (intPairs l)).filter (fun pv => pv.1 == Priority.int q) =
        intPairs (l.filter (fun pv => pv.1 == q))) ∧
      List.Perm (sort_by_priority (intPairs l)) (intPairs l)) ∧
    sort_by_priority [(Priority.int 3, 'a'), (Priority.int 1, 'b'), (Priority.int 1, 'c')] =
      [(Priority.int 1, 'b'), (Priority.int 1, 'c'), (Priority.int 3, 'a')] := by
  refine ⟨fun V l => ⟨?_, ?_, sort_by_priority_perm _⟩, rfl⟩
  · refine sort_by_priority_pairwise _ ?_
    intro z hz
    rcases List.mem_map.1 hz with ⟨pv, -, rfl⟩
    exact ⟨pv.1, rfl⟩
  · intro q
    rw [sort_by_priority_filter, intPairs_filter]

theorem pattern_match_go_false (record : Value) (ts : List PTriple) :
    pattern_match_go record false ts = Except.ok false := by
  induction ts with
  | nil => rfl
  | cons t rest ih => simpa [pattern_match_go] using ih

/-- C3 counterexample: with the equals relation expecting False, a triple
whose attribute path is absent from the record is a match (the lookup
returns the sentinel False and False == False), contradicting the
claimed absent-path-is-a-non-match rule; and with the contains relation
an absent path raises a TypeError (False is not a container),
contradicting the claimed never-raises rule. -/
theorem C3_counterexample :
    Pattern_match [⟨["a".toList], RelKind.equals, Value.bool false⟩] (Value.dict []) =
      Except.ok true ∧
    Pattern_match [⟨["a".toList], RelKind.contains, Value.str "x".toList⟩] (Value.dict []) =
      Except.error PyErr.typeError :=
  ⟨rfl, rfl⟩

/-- C3 amended: Pattern.match evaluates its triples left to right under a
short-circuiting conjunction; an absent attribute path contributes the
sentinel False as the actual value rather than being an automatic
non-match (in particular an equals-False triple matches an absent path).
When every triple's relation is equals or not-equals and every lookup
completes (the traversed prefixes are mappings), matching never raises
and returns true iff every triple's relation holds on the
sentinel-completed lookups.  A contains triple whose actual value is not
a container, for example an absent path, raises a TypeError when it is
reached, and a lookup through a non-mapping value can also raise. -/
theorem C3_amended (ts : List PTriple) (record : Value)
    (hrel : ∀ t ∈ ts, t.rel = RelKind.equals ∨ t.rel = RelKind.doesNotEqual)
    (hok : ∀ t ∈ ts, ∃ v, get_dict_value record t.path = Except.ok v) :
    Pattern_match ts record = Except.ok (ts.all (triple_holds record)) := by
  unfold Pattern_match
  induction ts with
  | nil => rfl
  | cons t rest ih =>
    rcases hok t (List.mem_cons_self _ _) with ⟨v, hv⟩
    have hrest : pattern_match_go record true rest =
        Except.ok (rest.all (triple_holds record)) :=
      ih (fun u hu => hrel u (List.mem_cons_of_mem _ hu))
        (fun u hu => hok u (List.mem_cons_of_mem _ hu))
    have hth : ∀ b : Bool, rel_match t.rel v t.val = Except.ok b →
        triple_holds record t = b := by
      intro b hb
      rcases hrel t (List.mem_cons_self _ _) with hr | hr <;>
        simp [triple_holds, hv, hr, rel_match] at hb ⊢ <;> simp_all
    rcases hrel t (List.mem_cons_self _ _) with hr | hr
    · have hb : rel_match t.rel v t.val = Except.ok (pyEq v t.val) := by
        rw [hr]; rfl
      simp only [pattern_match_go, if_true, hv, hb]
      cases hbv : pyEq v t.val with
      | true =>
        rw [List.all_cons, hth _ (by rw [hb, hbv])]
        simpa [hbv] using hrest
      | false =>
        rw [List.all_cons, hth _ (by rw [hb, hbv])]
        simp only [hbv, Bool.false_and]
        exact pattern_match_go_false record rest
    · have hb : rel_match t.rel v t.val = Except.ok (!pyEq v t.val) := by
        rw [hr]; rfl
      simp only [pattern_match_go, if_true, hv, hb]
      cases hbv : !pyEq v t.val with
      | true =>
        rw [List.all_cons, hth _ (by rw [hb, hbv])]
        simpa [hbv] using hrest
      | false =>
        rw [List.all_cons, hth _ (by rw [hb, hbv])]
        simp only [hbv, Bool.false_and]
        exact pattern_match_go_false record rest

/-- Witness for the C3 amended theorem at a concrete one-triple pattern
and record. -/
theorem C3_amended_witness :
    (∀ t ∈ [(⟨["a".toList], RelKind.equals, Value.int 1⟩ : PTriple)],
      t.rel = RelKind.equals ∨ t.rel = RelKind.doesNotEqual) ∧
    (∀ t ∈ [(⟨["a".toList], RelKind.equals, Value.int 1⟩ : PTriple)],
      ∃ v, get_dict_value (Value.dict [("a".toList, Value.int 1)]) t.path = Except.ok v) ∧
    Pattern_match [(⟨["a".toList], RelKind.equals, Value.int 1⟩ : PTriple)]
        (Value.dict [("a".toList, Value.int 1)]) =
      Except.ok ([(⟨["a".toList], RelKind.equals, Value.int 1⟩ : PTriple)].all
        (triple_holds (Value.dict [("a".toList, Value.int 1)]))) := by
  have h1 : ∀ t ∈ [(⟨["a".toList], RelKind.equals, Value.int 1⟩ : PTriple)],
      t.rel = RelKind.equals ∨ t.rel = RelKind.doesNotEqual := by
    intro t ht
    rcases List.mem_singleton.1 ht with rfl
    exact Or.inl rfl
  have h2 : ∀ t ∈ [(⟨["a".toList], RelKind.equals, Value.int 1⟩ : PTriple)],
      ∃ v, get_dict_value (Value.dict [("a".toList, Value.int 1)]) t.path = Except.ok v := by
    intro t ht
    rcases List.mem_singleton.1 ht with rfl
    exact ⟨Value.int 1, rfl⟩
  exact ⟨h1, h2, C3_amended _ _ h1 h2⟩

theorem map_matches_all_false (l : List (Str × List PTriple)) (record : Value)
    (h : ∀ pr ∈ l, Pattern_match pr.2 record = Except.ok false) :
    map_matches l record = Except.ok (l.map fun _ => false) := by
  induction l with
  | nil => rfl
  | cons pr rest ih =>
    simp only [map_matches, h pr (List.mem_cons_self _ _),
      ih (fun u hu => h u (List.mem_cons_of_mem _ hu)), List.map_cons]

theorem map_matches_append {l1 l2 : List (Str × List PTriple)} {record : Value}
    {b1 b2 : List Bool} (h1 : map_matches l1 record = Except.ok b1)
    (h2 : map_matches l2 record = Except.ok b2) :
    map_matches (l1 ++ l2) record = Except.ok (b1 ++ b2) := by
  induction l1 generalizing b1 with
  | nil =>
    simp only [map_matches] at h1
    injection h1 with h1
    subst h1
    simpa using h2
  | cons pr rest ih =>
    simp only [map_matches] at h1
    cases hp : Pattern_match pr.2 record with
    | error e => rw [hp] at h1; cases h1
    | ok b =>
      rw [hp] at h1
      cases hr : map_matches rest record with
      | error e => rw [hr] at h1; cases h1
      | ok bs =>
        rw [hr] at h1
        injection h1 with h1
        subst h1
        rw [List.cons_append]
        simp only [map_matches, hp, ih hr, List.cons_append]

theorem count_true_map_false {α : Type} (l : List α) :
    (l.map fun _ => false).count true = 0 := by
  rw [List.count_eq_zero]
  intro hmem
  rcases List.mem_map.1 hmem with ⟨x, -, hx⟩
  cases hx

theorem findIdx_false_front (n : List Bool) (r : List Bool)
    (h : ∀ b ∈ n, b = false) :
    (n ++ true :: r).findIdx (fun b => b) = n.length := by
  induction n with
  | nil => simp [List.findIdx_cons]
  | cons b rest ih =>
    have hb : b = false := h b (List.mem_cons_self _ _)
    subst hb
    simp [List.findIdx_cons, ih (fun u hu => h u (List.mem_cons_of_mem _ hu))]

theorem getD_append_length {α : Type} (l1 : List α) (a : α) (l2 : List α) (d : α) :
    (l1 ++ a :: l2).getD l1.length d = a := by
  induction l1 with
  | nil => rfl
  | cons x rest ih => simpa using ih

theorem two_get_count (ms : List Bool) :
    ∀ i j : Nat, i < j → ms.get? i = some true → ms.get? j = some true →
      2 ≤ ms.count true := by
  induction ms with
  | nil => intro i j _ hi _; cases hi
  | cons b rest ih =>
    intro i j hij hi hj
    cases i with
    | zero =>
      cases j with
      | zero => cases hij
      | succ j2 =>
        simp only [List.get?_cons_zero] at hi
        injection hi with hi
        subst hi
        simp only [List.get?_cons_succ] at hj
        have hmem : true ∈ rest := List.get?_mem hj
        have hpos : 0 < rest.count true := List.count_pos_iff.2 hmem
        simp only [List.count_cons_self]
        omega
    | succ i2 =>
      cases j with
      | zero => cases hij
      | succ j2 =>
        simp only [List.get?_cons_succ] at hi hj
        have := ih i2 j2 (Nat.lt_of_succ_lt_succ hij) hi hj
        have hcc : rest.count true ≤ (b :: rest).count true := by
          rw [List.count_cons]
          omega
        omega

/-- C6 counterexample: a scheme whose single Pattern uses the contains
relation raises a TypeError on a record where the path is absent (zero
patterns match), instead of returning None as the claim requires for
the zero-match case. -/
theorem C6_counterexample :
    get_entity [("r".toList, [⟨["a".toList], RelKind.contains, Value.str "x".toList⟩])]
      (Value.dict []) = Except.error PyErr.typeError :=
  rfl

/-- C6 amended: classification returns the unique matching Pattern's role
when exactly one Pattern matches, and None when zero or at least two
match, without raising, provided that every Pattern's matching itself
completes without raising (as with the configured scheme, whose
relations are all equals); when a Pattern's matching raises - e.g. a
contains relation reaching an absent path - the error propagates
instead of a None result. -/
theorem C6_amended :
    (∀ (pre post : List (Str × List PTriple)) (role : Str) (p : List PTriple)
      (record : Value),
      (∀ pr ∈ pre, Pattern_match pr.2 record = Except.ok false) →
      (∀ pr ∈ post, Pattern_match pr.2 record = Except.ok false) →
      Pattern_match p record = Except.ok true →
      get_entity (pre ++ (role, p) :: post) record = Except.ok (some role)) ∧
    (∀ (scheme : List (Str × List PTriple)) (record : Value),
      (∀ pr ∈ scheme, Pattern_match pr.2 record = Except.ok false) →
      get_entity scheme record = Except.ok Option.none) ∧
    (∀ (scheme : List (Str × List PTriple)) (record : Value) (ms : List Bool) (i j : Nat),
      map_matches scheme record = Except.ok ms → i < j →
      ms.get? i = some true → ms.get? j = some true →
      get_entity scheme record = Except.ok Option.none) := by
  refine ⟨?_, ?_, ?_⟩
  · intro pre post role p record hpre hpost hp
    have hmid : map_matches ((role, p) :: post) record =
        Except.ok (true :: post.map fun _ => false) := by
      simp only [map_matches, hp, map_matches_all_false post record hpost]
    have hms := map_matches_append (map_matches_all_false pre record hpre) hmid
    have hcount : ((pre.map fun _ => false) ++ true :: post.map fun _ => false).count true = 1 := by
      rw [List.count_append, count_true_map_false, List.count_cons_self, count_true_map_false]
    have hidx : ((pre.map fun _ => false) ++ true :: post.map fun _ => false).findIdx
        (fun b => b) = pre.length := by
      rw [findIdx_false_front]
      · exact List.length_map pre _
      · intro b hb
        rcases List.mem_map.1 hb with ⟨x, -, hx⟩
        exact hx.symm
    simp only [get_entity, hms]
    rw [if_pos hcount, hidx]
    rw [List.map_append, List.map_cons]
    rw [show pre.length = (List.map Prod.fst pre).length from (List.length_map pre Prod.fst).symm]
    rw [getD_append_length]
  · intro scheme record h
    have hms := map_matches_all_false scheme record h
    have hcount := count_true_map_false scheme
    simp only [get_entity, hms]
    rw [if_neg (by rw [hcount]; omega)]
  · intro scheme record ms i j hms hij hi hj
    have hcount := two_get_count ms i j hij hi hj
    simp only [get_entity, hms]
    rw [if_neg (by omega)]

/-- Witness for the C6 amended theorem: a two-role scheme where exactly
the first Pattern matches yields that role. -/
theorem C6_amended_witness :
    Pattern_match [⟨["a".toList], RelKind.equals, Value.int 1⟩]
      (Value.dict [("a".toList, Value.int 1)]) = Except.ok true ∧
    Pattern_match [⟨["a".toList], RelKind.equals, Value.int 2⟩]
      (Value.dict [("a".toList, Value.int 1)]) = Except.ok false ∧
    get_entity [("var".toList, [⟨["a".toList], RelKind.equals, Value.int 1⟩]),
                ("fn".toList, [⟨["a".toList], RelKind.equals, Value.int 2⟩])]
      (Value.dict [("a".toList, Value.int 1)]) = Except.ok (some ("var".toList)) := by
  refine ⟨rfl, rfl, ?_⟩
  have happ := C6_amended.1 []
    [("fn".toList, [⟨["a".toList], RelKind.equals, Value.int 2⟩])]
    ("var".toList) [⟨["a".toList], RelKind.equals, Value.int 1⟩]
    (Value.dict [("a".toList, Value.int 1)])
    (by intro pr h; cases h)
    (by intro pr h; rcases List.mem_singleton.1 h with rfl; rfl)
    rfl
  simpa using happ

/-- C1: when a Computation's callable returns an outputs sequence whose
length differs from the number of output cells and there is exactly one
output cell, the source's packing branch does not perform
sets[0].update(outputs): it reads the names output and k, which are only
bound by the one-by-one loop that never ran in this branch, so the call
raises UnboundLocalError and assigns nothing - the workspace carried by
the error is the unchanged input workspace.  This contradicts the claim
and the function's own docstring (self.sets[0] = T). -/
theorem C1_code_bug (fuel : Nat) (ws : WSE) (fi : Nat) (f : FuncE)
    (hf : ws.funcs.get? fi = some f)
    (hlen : (make_iterable_tuple (f.fn (f.gets.map
      (fun vi => (ws.vars.getD vi defaultCell).value)))).length ≠ f.sets.length)
    (h1 : f.sets.length = 1) :
    call_function (fuel + 1) ws fi = Except.error (PyErr.unboundLocalError, ws) := by
  simp only [call_function, hf]
  rw [if_neg hlen, if_pos h1]

/-- Witness for C1: a computation with one output cell whose callable
returns a 3-tuple raises UnboundLocalError and leaves the workspace
unchanged. -/
theorem C1_code_bug_witness :
    ws_pack_example.funcs.get? 0 = some fn_pack_example ∧
    (make_iterable_tuple (fn_pack_example.fn (fn_pack_example.gets.map
      (fun vi => (ws_pack_example.vars.getD vi defaultCell).value)))).length ≠
      fn_pack_example.sets.length ∧
    fn_pack_example.sets.length = 1 ∧
    call_function 5 ws_pack_example 0 =
      Except.error (PyErr.unboundLocalError, ws_pack_example) :=
  ⟨rfl, by decide, rfl,
   C1_code_bug 4 ws_pack_example 0 fn_pack_example rfl (by decide) rfl⟩

/-- C2: when the output count differs from the number of output cells and
there is not exactly one output cell, the call raises before any output
cell is set or touched and before any trigger fires - the workspace
carried by the error is the unchanged input workspace.  However the
exception is not the engine's dispatch error: the source builds the
message by calling .format on a parenthesized, comma-separated tuple of
string fragments, and tuple has no .format attribute, so a builtin
AttributeError is raised while EngineAttributeError is never
constructed. -/
theorem C2_code_bug (fuel : Nat) (ws : WSE) (fi : Nat) (f : FuncE)
    (hf : ws.funcs.get? fi = some f)
    (hlen : (make_iterable_tuple (f.fn (f.gets.map
      (fun vi => (ws.vars.getD vi defaultCell).value)))).length ≠ f.sets.length)
    (h1 : f.sets.length ≠ 1) :
    call_function (fuel + 1) ws fi = Except.error (PyErr.attributeError, ws) := by
  simp only [call_function, hf]
  rw [if_neg hlen, if_neg h1]

/-- Witness for C2: a computation with two output cells whose callable
returns a 3-tuple raises AttributeError and updates no cell. -/
theorem C2_code_bug_witness :
    ws_arity_example.funcs.get? 0 = some fn_arity_example ∧
    (make_iterable_tuple (fn_arity_example.fn (fn_arity_example.gets.map
      (fun vi => (ws_arity_example.vars.getD vi defaultCell).value)))).length ≠
      fn_arity_example.sets.length ∧
    fn_arity_example.sets.length ≠ 1 ∧
    call_function 5 ws_arity_example 0 =
      Except.error (PyErr.attributeError, ws_arity_example) :=
  ⟨rfl, by decide, by decide,
   C2_code_bug 4 ws_arity_example 0 fn_arity_example rfl (by decide) (by decide)⟩

/-- C5: parse_label on the label "@x 0" (one name token, separator
present) returns the name "x " - the slice label[find(token)+1 :
find(separator)+1] includes the separator character - instead of the
claimed "x"; consequently the definitions lookup uses the name "x " and
raises AttributeError even though the definitions namespace contains x,
so a labeled-with-description node can never be built. -/
theorem C5_code_bug :
    parse_label ("@x 0".toList) = Except.ok ("x ".toList, "0".toList) ∧
    "x ".toList ≠ "x".toList ∧
    alookup [("x".toList, (0 : Int))] ("x".toList) = some 0 ∧
    variable_from_definitions [("x".toList, (0 : Int))]
      (Value.dict [("label".toList, Value.str ("@x 0".toList))]) =
      Except.error PyErr.attributeError :=
  ⟨rfl, by decide, rfl, rfl⟩

theorem list_index_mem {l : List Str} {s : Str} (h : s ∈ l) :
    ∃ n, list_index l s = Except.ok n := by
  induction l with
  | nil => exact absurd h (List.not_mem_nil s)
  | cons k rest ih =>
    by_cases hk : k = s
    · exact ⟨0, by simp [list_index, hk]⟩
    · have hs : s ∈ rest := by
        rcases List.mem_cons.1 h with rfl | hr
        · exact absurd rfl hk
        · exact hr
      rcases ih hs with ⟨n, hn⟩
      exact ⟨n + 1, by simp [list_index, hk, hn]⟩

theorem list_pop_nat {α : Type} (l : List α) (i : Nat) (hi : i < l.length) :
    list_pop l (i : Int) = Except.ok (l.get ⟨i, hi⟩, l.eraseIdx i) := by
  have h0 : ¬((i : Int) < 0) := by omega
  have hcond : (0 : Int) ≤ (i : Int) ∧ (i : Int) < l.length := by
    constructor
    · omega
    · exact_mod_cast hi
  simp only [list_pop]
  rw [if_neg h0, if_pos hcond, Int.toNat_natCast, List.get?_eq_get hi]

/-- C9: NamedList.pop computes ind = _get_ind(index), but then calls
self._keys.pop(index) with the original argument: for a string key
present in the registry this is list.pop(str), a TypeError, raised
before anything is removed (the registry carried by the error is
unchanged), so pop-by-key never works; pop by integer position removes
and returns the value at that position as claimed. -/
theorem C9_code_bug :
    (∀ (V : Type) (nl : NamedListM V) (s : Str), s ∈ nl.keys →
      NamedList_pop nl (Sum.inr s) = Except.error (PyErr.typeError, nl)) ∧
    (∀ (V : Type) (nl : NamedListM V) (i : Nat) (hi : i < nl.values.length),
      nl.keys.length = nl.values.length →
      NamedList_pop nl (Sum.inl (i : Int)) =
        Except.ok (nl.values.get ⟨i, hi⟩,
          { keys := nl.keys.eraseIdx i, values := nl.values.eraseIdx i })) := by
  constructor
  · intro V nl s hs
    rcases list_index_mem hs with ⟨n, hn⟩
    simp only [NamedList_pop, hn]
  · intro V nl i hi hlen
    have hik : i < nl.keys.length := by omega
    simp only [NamedList_pop, list_pop_nat nl.keys i hik, list_pop_nat nl.values i hi]

/-- Witness for C9: popping the present key a raises TypeError and leaves
the registry unchanged; popping position 0 removes and returns the
value. -/
theorem C9_code_bug_witness :
    ("a".toList ∈ ({ keys := ["a".toList], values := [10] } : NamedListM Nat).keys) ∧
    NamedList_pop ({ keys := ["a".toList], values := [10] } : NamedListM Nat)
      (Sum.inr ("a".toList)) =
      Except.error (PyErr.typeError, { keys := ["a".toList], values := [10] }) ∧
    NamedList_pop ({ keys := ["a".toList], values := [10] } : NamedListM Nat)
      (Sum.inl ((0 : Nat) : Int)) =
      Except.ok (10, { keys := [], values := [] }) := by
  refine ⟨List.mem_singleton.2 rfl, ?_, ?_⟩
  · exact C9_code_bug.1 Nat _ ("a".toList) (List.mem_singleton.2 rfl)
  · exact C9_code_bug.2 Nat { keys := ["a".toList], values := [10] } 0 (by decide) rfl

theorem pl_drain_spec {V : Type} :
    ∀ (n : Nat) (pl : PriorityListIt V), pl.values.length - pl.cursor = n →
      pl.cursor ≤ pl.values.length →
      pl_drain pl = (pl.values.drop pl.cursor, { pl with cursor := pl.values.length }) := by
  intro n
  induction n with
  | zero =>
    rintro ⟨ps, vs, c⟩ hn hle
    simp only at hn hle
    have hc : c = vs.length := by omega
    subst hc
    rw [pl_drain]
    simp [List.drop_length]
  | succ n ih =>
    rintro ⟨ps, vs, c⟩ hn hle
    simp only at hn hle
    have hlt : c < vs.length := by omega
    rw [pl_drain]
    rw [dif_pos hlt]
    have hrec := ih ⟨ps, vs, c + 1⟩ (by simp; omega) (by simp; omega)
    simp only at hrec
    rw [hrec]
    simp only
    rw [List.drop_eq_get_cons hlt]

theorem nl_drain_spec {V : Type} :
    ∀ (n : Nat) (nl : NamedListIt V), nl.values.length - nl.cursor = n →
      nl.cursor ≤ nl.values.length →
      nl_drain nl = (nl.values.drop nl.cursor, { nl with cursor := nl.values.length }) := by
  intro n
  induction n with
  | zero =>
    rintro ⟨ks, vs, c⟩ hn hle
    simp only at hn hle
    have hc : c = vs.length := by omega
    subst hc
    rw [nl_drain]
    simp [List.drop_length]
  | succ n ih =>
    rintro ⟨ks, vs, c⟩ hn hle
    simp only at hn hle
    have hlt : c < vs.length := by omega
    rw [nl_drain]
    rw [dif_pos hlt]
    have hrec := ih ⟨ks, vs, c + 1⟩ (by simp; omega) (by simp; omega)
    simp only at hrec
    rw [hrec]
    simp only
    rw [List.drop_eq_get_cons hlt]

/-- C10: both containers are their own iterators with one cursor field on
the object: __iter__ resets that shared cursor to 0 and returns the
object itself, so beginning a new iteration while another iteration of
the same container is in progress resets the in-progress iteration's
position to the beginning; running the re-entered loop ends with the
shared cursor at the end of the list, so it visits the whole list from
the start (a restart, not a continuation of the outer position), and the
pre-empted outer loop then observes an exhausted iterator.  This is the
mechanism a trigger cascade hits when it re-enters iteration of the same
triggers list, as Variable.set_value does on a cyclic graph. -/
theorem C10_shared_iterator_cursor :
    (∀ (V : Type) (ps : List Priority) (vals : List V) (j : Nat),
      (pl_iter ⟨ps, vals, j⟩).cursor = 0 ∧
      (pl_iter ⟨ps, vals, j⟩).values = vals ∧
      pl_drain (pl_iter ⟨ps, vals, j⟩) = (vals, ⟨ps, vals, vals.length⟩)) ∧
    (∀ (V : Type) (ks : List Str) (vals : List V) (j : Nat),
      (nl_iter ⟨ks, vals, j⟩).cursor = 0 ∧
      (nl_iter ⟨ks, vals, j⟩).values = vals ∧
      nl_drain (nl_iter ⟨ks, vals, j⟩) = (vals, ⟨ks, vals, vals.length⟩)) := by
  constructor
  · intro V ps vals j
    refine ⟨rfl, rfl, ?_⟩
    have := pl_drain_spec (vals.length) (⟨ps, vals, 0⟩ : PriorityListIt V) (by simp) (by simp)
    simpa [pl_iter] using this
  · intro V ks vals j
    refine ⟨rfl, rfl, ?_⟩
    have := nl_drain_spec (vals.length) (⟨ks, vals, 0⟩ : NamedListIt V) (by simp) (by simp)
    simpa [nl_iter] using this
